import Mathlib

/-!
Shallow embedding of the ASS-subtitle parser of `src/main.py`
(`parse_ass_to_dicts_first_color` and `_ass_time_to_seconds`).

Modelling conventions:
* Python strings are `List Char`; the public entry point takes a Lean
  `String` and works on its character list.
* Python exceptions are `Option`: `none` means the call raised and the
  exception propagated to the caller.
* Python floats are modelled as exact rationals `ℚ`; the numeric literals in
  the subtitle format are short decimal strings, and the spec's arithmetic
  (`hours*3600 + minutes*60 + seconds`) is stated over those decimals.
* `int(...)` / `float(...)` are modelled by `pyInt` / `pyFloat`: surrounding
  whitespace is stripped, an optional single leading sign is accepted, then
  a nonempty run of decimal digits (with an optional fractional part for
  `float`).  Python additionally accepts underscores between digits and
  exponent / infinity forms for `float`; those never occur in this
  repository's inputs and are not modelled.
* The regular expressions of the source are fixed literal patterns
  (`\{\\1c&H([0-9A-Fa-f]{6})&\}`, `\{\\1c\}`, the literal `\N`); they are
  embedded as direct left-to-right scanners with the same non-overlapping
  match semantics as `re.findall` / `re.sub` / `str.replace`.
-/

/-- Python `str.strip()` whitespace set (as used on ASCII subtitle text). -/
def isPySpace (c : Char) : Bool :=
  c = ' ' || c = '\t' || c = '\n' || c = '\r' || c = '\x0b' || c = '\x0c'

/-- Python `str.strip()`: drop leading and trailing whitespace. -/
def pyStrip (l : List Char) : List Char :=
  ((l.dropWhile isPySpace).reverse.dropWhile isPySpace).reverse

/-- Worker for `splitOnChar`; `acc` holds the current field reversed. -/
def splitOnCharAux : List Char → Char → List Char → List (List Char)
  | [], _, acc => [acc.reverse]
  | c :: cs, sep, acc =>
    if c = sep then acc.reverse :: splitOnCharAux cs sep []
    else splitOnCharAux cs sep (c :: acc)

/-- Python `str.split(sep)` with a one-character separator (keeps empties). -/
def splitOnChar (l : List Char) (sep : Char) : List (List Char) :=
  splitOnCharAux l sep []

/-- Worker for `splitLimit`; `n` is the number of splits still allowed. -/
def splitLimitAux : List Char → Char → Nat → List Char → List (List Char)
  | [], _, _, acc => [acc.reverse]
  | c :: cs, sep, n, acc =>
    if c = sep then
      match n with
      | 0 => splitLimitAux cs sep 0 (c :: acc)
      | Nat.succ m => acc.reverse :: splitLimitAux cs sep m []
    else splitLimitAux cs sep n (c :: acc)

/-- Python `str.split(sep, maxsplit)` with a one-character separator. -/
def splitLimit (l : List Char) (sep : Char) (n : Nat) : List (List Char) :=
  splitLimitAux l sep n []

/-- Worker for `pySplitlines`. -/
def pySplitlinesAux : List Char → List Char → List (List Char)
  | [], acc => if acc.isEmpty then [] else [acc.reverse]
  | '\r' :: '\n' :: rest, acc => acc.reverse :: pySplitlinesAux rest []
  | '\n' :: rest, acc => acc.reverse :: pySplitlinesAux rest []
  | '\r' :: rest, acc => acc.reverse :: pySplitlinesAux rest []
  | c :: rest, acc => pySplitlinesAux rest (c :: acc)

/-- Python `str.splitlines()` for the terminators `\n`, `\r\n`, `\r`
(the exotic unicode terminators Python also accepts are not modelled). -/
def pySplitlines (l : List Char) : List (List Char) :=
  pySplitlinesAux l []

/-- `needle.isPrefixOf hay` as a Bool, modelling Python `str.startswith`. -/
def isPrefixList : List Char → List Char → Bool
  | [], _ => true
  | _ :: _, [] => false
  | c :: cs, d :: ds => c = d && isPrefixList cs ds

/-- Value of a run of decimal digits, most significant first. -/
def digitsToNat (l : List Char) : Nat :=
  l.foldl (fun n c => 10 * n + (c.toNat - '0'.toNat)) 0

/-- A nonempty all-digit run parses to its value; anything else fails. -/
def parseDigits (l : List Char) : Option Nat :=
  if l.isEmpty then none
  else if l.all Char.isDigit then some (digitsToNat l) else none

/-- Python `int(s)`: strip whitespace, optional sign, nonempty digit run.
Raising `ValueError` is `none`. -/
def pyInt (l : List Char) : Option Int :=
  match pyStrip l with
  | [] => none
  | c :: rest =>
    if c = '-' then (parseDigits rest).map (fun n => -(n : Int))
    else if c = '+' then (parseDigits rest).map (fun n => (n : Int))
    else (parseDigits (c :: rest)).map (fun n => (n : Int))

/-- Unsigned part of Python `float(s)`: `digits`, `digits.digits`,
`digits.` or `.digits` (at least one digit overall). -/
def pyFloatUnsigned (l : List Char) : Option ℚ :=
  match splitOnChar l '.' with
  | [ip] => (parseDigits ip).map (fun n => (n : ℚ))
  | [ip, fp] =>
    if ip.isEmpty && fp.isEmpty then none
    else if ip.all Char.isDigit && fp.all Char.isDigit then
      some ((digitsToNat ip : ℚ) + (digitsToNat fp : ℚ) / ((10 : ℚ) ^ fp.length))
    else none
  | _ => none

/-- Python `float(s)` restricted to plain decimal notation; `none` = raise. -/
def pyFloat (l : List Char) : Option ℚ :=
  match pyStrip l with
  | [] => none
  | c :: rest =>
    if c = '-' then (pyFloatUnsigned rest).map (fun q => -q)
    else if c = '+' then pyFloatUnsigned rest
    else pyFloatUnsigned (c :: rest)

/-- `_ass_time_to_seconds` of `src/main.py`: split on `:` into exactly three
parts (tuple unpacking raises otherwise), `int` the first two, `float` the
third, and return `hours*3600 + minutes*60 + seconds`. -/
def ass_time_to_seconds (l : List Char) : Option ℚ :=
  match splitOnChar l ':' with
  | [h, m, s] =>
    match pyInt h, pyInt m, pyFloat s with
    | some hours, some minutes, some seconds =>
      some ((hours : ℚ) * 3600 + (minutes : ℚ) * 60 + seconds)
    | _, _, _ => none
  | _ => none

/-- The character class `[0-9A-Fa-f]` of the colour-tag regex. -/
def isHexDigit (c : Char) : Bool :=
  c.isDigit || ('a' ≤ c && c ≤ 'f') || ('A' ≤ c && c ≤ 'F')

/-- All six captured characters are hex digits. -/
def hexSix (h1 h2 h3 h4 h5 h6 : Char) : Bool :=
  isHexDigit h1 && isHexDigit h2 && isHexDigit h3 &&
  isHexDigit h4 && isHexDigit h5 && isHexDigit h6

/-- Try to match the colour-tag pattern `\{\\1c&H([0-9A-Fa-f]{6})&\}` at the
current position: on success return the six captured hex digits and the
remainder after the match. -/
def colorTagAt : List Char → Option (List Char × List Char)
  | '{' :: '\\' :: '1' :: 'c' :: '&' :: 'H' :: h1 :: h2 :: h3 :: h4 :: h5 :: h6 :: '&' :: '}' :: rest =>
    if hexSix h1 h2 h3 h4 h5 h6 then some ([h1, h2, h3, h4, h5, h6], rest)
    else none
  | _ => none

/-- Fuelled worker for `findColorTags`; the fuel is an upper bound on the
number of scan positions, so `fuel = l.length` reproduces the regex scan
exactly (each step consumes at least one character). -/
def findColorTagsF : Nat → List Char → List (List Char)
  | 0, _ => []
  | _, [] => []
  | Nat.succ fuel, c :: cs =>
    match colorTagAt (c :: cs) with
    | some (code, rest) => code :: findColorTagsF fuel rest
    | none => findColorTagsF fuel cs

/-- `color_tag_pattern.findall`: all non-overlapping matches of
`\{\\1c&H([0-9A-Fa-f]{6})&\}`, scanning left to right; each match
contributes its six captured hex digits. -/
def findColorTags (l : List Char) : List (List Char) :=
  findColorTagsF l.length l

/-- Fuelled worker for `stripColorTags` (same fuel discipline as
`findColorTagsF`). -/
def stripColorTagsF : Nat → List Char → List Char
  | 0, l => l
  | _, [] => []
  | Nat.succ fuel, c :: cs =>
    match colorTagAt (c :: cs) with
    | some (_, rest) => stripColorTagsF fuel rest
    | none => c :: stripColorTagsF fuel cs

/-- `color_tag_pattern.sub('', ·)`: delete every non-overlapping match of the
colour-tag pattern, scanning left to right. -/
def stripColorTags (l : List Char) : List Char :=
  stripColorTagsF l.length l

/-- `re.sub(r'\{\\1c\}', '', ·)`: delete every occurrence of the literal
empty revert tag. -/
def stripRevertTags : List Char → List Char
  | '{' :: '\\' :: '1' :: 'c' :: '}' :: rest => stripRevertTags rest
  | c :: cs => c :: stripRevertTags cs
  | [] => []

/-- `.replace(r'\N', '\n')`: replace each literal `\N` by a newline. -/
def replaceLineBreaks : List Char → List Char
  | '\\' :: 'N' :: rest => '\n' :: replaceLineBreaks rest
  | c :: cs => c :: replaceLineBreaks cs
  | [] => []

/-- The `color_map` dict of `src/main.py`; `.get code` (`none` = absent). -/
def color_map (code : String) : Option String :=
  if code = "0000FF" then some "blue"
  else if code = "00FF00" then some "green"
  else if code = "FF0000" then some "red"
  else if code = "FFFF00" then some "yellow"
  else if code = "FF00FF" then some "magenta"
  else if code = "FFFFFF" then some "white"
  else if code = "000000" then some "black"
  else none

/-- Colour selection of the dialogue branch: the first found code, uppercased,
looked up in `color_map` with default `'white'`; no tag at all is `'white'`. -/
def chooseColor (textRaw : List Char) : String :=
  match findColorTags textRaw with
  | [] => "white"
  | c :: _ => (color_map (String.mk (c.map Char.toUpper))).getD "white"

/-- One emitted dictionary of `parse_ass_to_dicts_first_color`
(`end` is `endT`: `end` is a Lean keyword). -/
structure Item where
  text : String
  start : ℚ
  endT : ℚ
  pos : String
  fontsize : Int
  color : String
deriving DecidableEq, Repr

/-- The loop state of the parser: the two section flags and the current
default font size. -/
structure PState where
  inStyles : Bool
  inEvents : Bool
  default_fontsize : Int
deriving DecidableEq, Repr

/-- The style branch: split the stripped line on commas, take the style name
after the first `:` of field 0, and if it is `default` case-insensitively,
`int(parts[2])` replaces the default font size; any failure (missing field or
unparseable integer) is swallowed by the bare `except` and keeps `fd`.
(`getD` stands in for indexing that is either guarded by the `Style:` prefix
or whose `IndexError` the `try` block catches.) -/
def styleUpdate (fd : Int) (ls : List Char) : Int :=
  let parts := splitOnChar ls ','
  let styleName := pyStrip ((splitLimit (parts.getD 0 []) ':' 1).getD 1 [])
  if styleName.map Char.toLower = "default".toList then
    match pyInt (parts.getD 2 []) with
    | some n => n
    | none => fd
  else fd

/-- Header literal `[V4+ Styles]`. -/
def hdrStyles : List Char := ['[', 'V', '4', '+', ' ', 'S', 't', 'y', 'l', 'e', 's', ']']

/-- Header literal `[Events]`. -/
def hdrEvents : List Char := ['[', 'E', 'v', 'e', 'n', 't', 's', ']']

/-- Keyword literal `Style:`. -/
def kwStyle : List Char := ['S', 't', 'y', 'l', 'e', ':']

/-- Keyword literal `Dialogue:`. -/
def kwDialogue : List Char := ['D', 'i', 'a', 'l', 'o', 'g', 'u', 'e', ':']

/-- The `Dialogue:` branch of the loop body, on the stripped line `ls`:
split with `maxsplit=9` (`fields`), skip short lines, convert both times
(a failure raises, i.e. `none`), and append one dictionary built from
`fields[1]`, `fields[2]` and `fields[9]`. -/
def dialogueLine (st1 : PState) (ls : List Char) : Option (PState × Option Item) :=
  if (splitLimit ls ',' 9).length < 10 then some (st1, none)
  else
    match ass_time_to_seconds (pyStrip ((splitLimit ls ',' 9).getD 1 [])) with
    | none => none
    | some s =>
      match ass_time_to_seconds (pyStrip ((splitLimit ls ',' 9).getD 2 [])) with
      | none => none
      | some e =>
        some (st1,
          some ⟨String.mk (replaceLineBreaks (stripRevertTags (stripColorTags
                  (pyStrip ((splitLimit ls ',' 9).getD 9 []))))),
                s, e, "center", st1.default_fontsize,
                chooseColor (pyStrip ((splitLimit ls ',' 9).getD 9 []))⟩)

/-- The state after the `Style:` check of the loop body: on a `Style:` line
inside the Styles section the default font size is (possibly) updated,
otherwise the state is unchanged. -/
def styleState (st : PState) (ls : List Char) : PState :=
  if st.inStyles && isPrefixList kwStyle ls then
    ⟨st.inStyles, st.inEvents, styleUpdate st.default_fontsize ls⟩
  else st

/-- One iteration of the parser's `for line in lines` loop: returns the new
state and the (at most one) dictionary appended by this line, or `none` when
the iteration raises (`int`/`float` failure inside `_ass_time_to_seconds`). -/
def stepLine (st : PState) (l : List Char) : Option (PState × Option Item) :=
  if isPrefixList hdrStyles (pyStrip l) then
    some (⟨true, false, st.default_fontsize⟩, none)
  else if isPrefixList hdrEvents (pyStrip l) then
    some (⟨false, true, st.default_fontsize⟩, none)
  else if (styleState st (pyStrip l)).inEvents && isPrefixList kwDialogue (pyStrip l) then
    dialogueLine (styleState st (pyStrip l)) (pyStrip l)
  else some (styleState st (pyStrip l), none)

/-- Run the loop over the remaining lines, threading the state and collecting
the appended dictionaries in order; `none` as soon as one iteration raises. -/
def runLines : PState → List (List Char) → Option (PState × List Item)
  | st, [] => some (st, [])
  | st, l :: ls =>
    match stepLine st l with
    | none => none
    | some (st1, oit) =>
      match runLines st1 ls with
      | none => none
      | some (st2, items) => some (st2, oit.toList ++ items)

/-- The initial loop state: both section flags false, fallback font size 48. -/
def initState : PState := ⟨false, false, 48⟩

/-- `parse_ass_to_dicts_first_color` of `src/main.py`: split the script into
lines and run the scanning loop; `none` models an exception propagating to
the caller, `some items` the returned list. -/
def parse_ass_to_dicts_first_color (s : String) : Option (List Item) :=
  (runLines initState (pySplitlines s.toList)).map Prod.snd

/-! ## Analysis definitions

These definitions restate, in the spec's vocabulary, which lines are
section headers, which dialogue lines are well formed, how the loop state
advances, and where each emitted field comes from.  They are compared with
the source-derived parser by the theorems below. -/

/-- The state transition of one loop iteration, as a total function (the
section flags and the default font size never depend on the time fields,
whose failure aborts the loop instead). -/
def advState (st : PState) (l : List Char) : PState :=
  if isPrefixList hdrStyles (pyStrip l) then ⟨true, false, st.default_fontsize⟩
  else if isPrefixList hdrEvents (pyStrip l) then ⟨false, true, st.default_fontsize⟩
  else styleState st (pyStrip l)

/-- The stripped start-time field (`fields[1].strip()`) of a line. -/
def startFieldOf (l : List Char) : List Char :=
  pyStrip ((splitLimit (pyStrip l) ',' 9).getD 1 [])

/-- The stripped end-time field (`fields[2].strip()`) of a line. -/
def endFieldOf (l : List Char) : List Char :=
  pyStrip ((splitLimit (pyStrip l) ',' 9).getD 2 [])

/-- The stripped text payload (`fields[9].strip()`) of a line. -/
def payloadOf (l : List Char) : List Char :=
  pyStrip ((splitLimit (pyStrip l) ',' 9).getD 9 [])

/-- The text-cleaning pipeline applied to a payload: strip all colour tags,
strip empty revert tags, replace `\N` by newlines. -/
def cleanTextOf (p : List Char) : List Char :=
  replaceLineBreaks (stripRevertTags (stripColorTags p))

/-- A well-formed dialogue line at state `st`: the scanner is in the Events
section, the stripped line starts with `Dialogue:`, and splitting on at most
nine commas yields at least ten fields. -/
def isWFDialogue (st : PState) (l : List Char) : Bool :=
  st.inEvents && isPrefixList kwDialogue (pyStrip l) &&
    decide (10 ≤ (splitLimit (pyStrip l) ',' 9).length)

/-- A line does not raise: it is either not a well-formed dialogue line, or
both of its time fields convert successfully. -/
def lineTimeOk (st : PState) (l : List Char) : Bool :=
  if isWFDialogue st l then
    (ass_time_to_seconds (startFieldOf l)).isSome &&
      (ass_time_to_seconds (endFieldOf l)).isSome
  else true

/-- No line of the script raises, threading the state left to right. -/
def noTimeErrors : PState → List (List Char) → Bool
  | _, [] => true
  | st, l :: ls => lineTimeOk st l && noTimeErrors (advState st l) ls

/-- The number of well-formed dialogue lines, threading the state. -/
def countWF : PState → List (List Char) → Nat
  | _, [] => 0
  | st, l :: ls => (if isWFDialogue st l then 1 else 0) + countWF (advState st l) ls

/-! ## Per-line lemmas -/

/-- A nonempty needle pins down the head of any list it prefixes. -/
theorem prefix_head {c : Char} {cs ls : List Char}
    (h : isPrefixList (c :: cs) ls = true) :
    ∃ t, ls = c :: t ∧ isPrefixList cs t = true := by
  cases ls with
  | nil => simp [isPrefixList] at h
  | cons d t =>
    simp [isPrefixList] at h
    exact ⟨t, by rw [h.1], h.2⟩

/-- A line starting with `Dialogue:` does not start with `Style:`. -/
theorem dialogue_not_style {ls : List Char}
    (h : isPrefixList kwDialogue ls = true) : isPrefixList kwStyle ls = false := by
  simp only [kwDialogue] at h
  obtain ⟨t, rfl, -⟩ := prefix_head h
  simp [kwStyle, isPrefixList]

/-- A line starting with `Dialogue:` does not start with `[V4+ Styles]`. -/
theorem dialogue_not_hdrStyles {ls : List Char}
    (h : isPrefixList kwDialogue ls = true) : isPrefixList hdrStyles ls = false := by
  simp only [kwDialogue] at h
  obtain ⟨t, rfl, -⟩ := prefix_head h
  simp [hdrStyles, isPrefixList]

/-- A line starting with `Dialogue:` does not start with `[Events]`. -/
theorem dialogue_not_hdrEvents {ls : List Char}
    (h : isPrefixList kwDialogue ls = true) : isPrefixList hdrEvents ls = false := by
  simp only [kwDialogue] at h
  obtain ⟨t, rfl, -⟩ := prefix_head h
  simp [hdrEvents, isPrefixList]

/-- The dialogue branch never changes the state. -/
theorem dialogueLine_state {st1 : PState} {ls : List Char} {p : PState × Option Item}
    (h : dialogueLine st1 ls = some p) : p.1 = st1 := by
  unfold dialogueLine at h
  split at h
  · simp at h; subst h; rfl
  · split at h
    · exact absurd h (by simp)
    · split at h
      · exact absurd h (by simp)
      · simp at h; subst h; rfl

/-- The dialogue branch emits a dictionary exactly on lines with at least
ten fields (given that it did not raise). -/
theorem dialogueLine_item {st1 : PState} {ls : List Char} {p : PState × Option Item}
    (h : dialogueLine st1 ls = some p) :
    p.2.isSome = decide (10 ≤ (splitLimit ls ',' 9).length) := by
  unfold dialogueLine at h
  split at h
  · next hlt =>
    simp at h
    subst h
    simp
    omega
  · next hge =>
    split at h
    · exact absurd h (by simp)
    · split at h
      · exact absurd h (by simp)
      · simp at h
        subst h
        simp
        omega

/-- Everything about an emitted dictionary of the dialogue branch. -/
theorem dialogueLine_emit {st1 : PState} {ls : List Char} {st' : PState} {it : Item}
    (h : dialogueLine st1 ls = some (st', some it)) :
    st' = st1 ∧ 10 ≤ (splitLimit ls ',' 9).length ∧
    ∃ s e, ass_time_to_seconds (pyStrip ((splitLimit ls ',' 9).getD 1 [])) = some s ∧
      ass_time_to_seconds (pyStrip ((splitLimit ls ',' 9).getD 2 [])) = some e ∧
      it = ⟨String.mk (cleanTextOf (pyStrip ((splitLimit ls ',' 9).getD 9 []))), s, e, "center",
            st1.default_fontsize, chooseColor (pyStrip ((splitLimit ls ',' 9).getD 9 []))⟩ := by
  unfold dialogueLine at h
  split at h
  · simp at h
  · next hge =>
    split at h
    · exact absurd h (by simp)
    · next s hs =>
      split at h
      · exact absurd h (by simp)
      · next e he =>
        simp at h
        exact ⟨h.1.symm, by omega, s, e, hs, he, by rw [← h.2]; simp [cleanTextOf]⟩

/-- If the dialogue branch returned without a dictionary, the line was short. -/
theorem dialogueLine_isSome (st1 : PState) (ls : List Char) :
    (dialogueLine st1 ls).isSome =
      (decide ((splitLimit ls ',' 9).length < 10) ||
        ((ass_time_to_seconds (pyStrip ((splitLimit ls ',' 9).getD 1 []))).isSome &&
         (ass_time_to_seconds (pyStrip ((splitLimit ls ',' 9).getD 2 []))).isSome)) := by
  unfold dialogueLine
  split
  · next hlt => simp [hlt]
  · next hge =>
    split
    · next hs =>
      simp only [List.getD_eq_getElem?_getD] at hs ⊢
      simp [hs, hge]
    · next s hs =>
      simp only [List.getD_eq_getElem?_getD] at hs ⊢
      split
      · next he => simp [hs, he, hge]
      · next e he => simp [hs, he, hge]

/-- The `Style:` check never touches the section flags (events). -/
theorem styleState_inEvents (st : PState) (ls : List Char) :
    (styleState st ls).inEvents = st.inEvents := by
  unfold styleState; split <;> rfl

/-- The `Style:` check never touches the section flags (styles). -/
theorem styleState_inStyles (st : PState) (ls : List Char) :
    (styleState st ls).inStyles = st.inStyles := by
  unfold styleState; split <;> rfl

/-- On a `Dialogue:` line the `Style:` check is a no-op. -/
theorem styleState_of_dialogue {ls : List Char} (st : PState)
    (h : isPrefixList kwDialogue ls = true) : styleState st ls = st := by
  unfold styleState
  rw [dialogue_not_style h]
  simp

/-- A successful iteration advances the state exactly as `advState`. -/
theorem stepLine_state {st : PState} {l : List Char} {p : PState × Option Item}
    (h : stepLine st l = some p) : p.1 = advState st l := by
  unfold stepLine at h
  split at h
  · next h1 => simp at h; subst h; simp [advState, h1]
  · next h1 =>
    split at h
    · next h2 => simp at h; subst h; simp [advState, h1, h2]
    · next h2 =>
      split at h
      · next c3 =>
        rw [dialogueLine_state h]
        simp [advState, h1, h2]
      · next c3 => simp at h; subst h; simp [advState, h1, h2]

/-- A line starting with `[V4+ Styles]` does not start with `Dialogue:`. -/
theorem hdrStyles_not_dialogue {ls : List Char}
    (h : isPrefixList hdrStyles ls = true) : isPrefixList kwDialogue ls = false := by
  simp only [hdrStyles] at h
  obtain ⟨t, rfl, -⟩ := prefix_head h
  simp [kwDialogue, isPrefixList]

/-- A line starting with `[Events]` does not start with `Dialogue:`. -/
theorem hdrEvents_not_dialogue {ls : List Char}
    (h : isPrefixList hdrEvents ls = true) : isPrefixList kwDialogue ls = false := by
  simp only [hdrEvents] at h
  obtain ⟨t, rfl, -⟩ := prefix_head h
  simp [kwDialogue, isPrefixList]

/-- A successful iteration emits a dictionary exactly on well-formed
dialogue lines. -/
theorem stepLine_item {st : PState} {l : List Char} {p : PState × Option Item}
    (h : stepLine st l = some p) : p.2.isSome = isWFDialogue st l := by
  unfold stepLine at h
  unfold isWFDialogue
  split at h
  · next h1 =>
    simp at h; subst h
    simp [hdrStyles_not_dialogue h1]
  · next h1 =>
    split at h
    · next h2 =>
      simp at h; subst h
      simp [hdrEvents_not_dialogue h2]
    · next h2 =>
      split at h
      · next c3 =>
        rw [dialogueLine_item h]
        rw [styleState_inEvents, Bool.and_eq_true] at c3
        simp [c3.1, c3.2]
      · next c3 =>
        simp at h; subst h
        rw [styleState_inEvents] at c3
        cases hev : st.inEvents <;>
          cases hdlg : isPrefixList kwDialogue (pyStrip l) <;> simp_all

/-- An iteration succeeds exactly when `lineTimeOk` holds at its line. -/
theorem stepLine_isSome (st : PState) (l : List Char) :
    (stepLine st l).isSome = lineTimeOk st l := by
  unfold stepLine lineTimeOk isWFDialogue
  split
  · next h1 => simp [hdrStyles_not_dialogue h1]
  · next h1 =>
    split
    · next h2 => simp [hdrEvents_not_dialogue h2]
    · next h2 =>
      split
      · next c3 =>
        rw [dialogueLine_isSome]
        rw [styleState_inEvents, Bool.and_eq_true] at c3
        by_cases hlen : 10 ≤ (splitLimit (pyStrip l) ',' 9).length
        · have hnl : ¬ ((splitLimit (pyStrip l) ',' 9).length < 10) := by omega
          simp [c3.1, c3.2, hlen, hnl, startFieldOf, endFieldOf]
        · have hl : (splitLimit (pyStrip l) ',' 9).length < 10 := by omega
          simp [c3.1, c3.2, hlen, hl]
      · next c3 =>
        rw [styleState_inEvents] at c3
        cases hev : st.inEvents <;>
          cases hdlg : isPrefixList kwDialogue (pyStrip l) <;> simp_all

/-- Everything about an emitted dictionary of one loop iteration: the state
is untouched, the line is a well-formed dialogue line, and every field of
the dictionary is computed from the line's split fields. -/
theorem stepLine_emit {st : PState} {l : List Char} {st' : PState} {it : Item}
    (h : stepLine st l = some (st', some it)) :
    st' = st ∧ st.inEvents = true ∧ isPrefixList kwDialogue (pyStrip l) = true ∧
    10 ≤ (splitLimit (pyStrip l) ',' 9).length ∧
    ∃ s e, ass_time_to_seconds (startFieldOf l) = some s ∧
      ass_time_to_seconds (endFieldOf l) = some e ∧
      it = ⟨String.mk (cleanTextOf (payloadOf l)), s, e, "center",
            st.default_fontsize, chooseColor (payloadOf l)⟩ := by
  unfold stepLine at h
  split at h
  · simp at h
  · split at h
    · simp at h
    · split at h
      · next c3 =>
        rw [styleState_inEvents, Bool.and_eq_true] at c3
        have hst : styleState st (pyStrip l) = st := styleState_of_dialogue st c3.2
        rw [hst] at h
        obtain ⟨h1, h2, s, e, hs, he, hit⟩ := dialogueLine_emit h
        exact ⟨h1, c3.1, c3.2, h2, s, e, hs, he, by
          rw [hit]; simp [startFieldOf, endFieldOf, payloadOf]⟩
      · simp at h

/-! ## Loop-level lemmas -/

/-- Running the loop over a concatenation runs the two blocks in sequence,
threading the state, and concatenates their outputs. -/
theorem runLines_append (st : PState) (xs ys : List (List Char)) :
    runLines st (xs ++ ys) =
      (runLines st xs).bind fun p =>
        (runLines p.1 ys).map fun q => (q.1, p.2 ++ q.2) := by
  induction xs generalizing st with
  | nil =>
    cases h : runLines st ys with
    | none => simp [runLines, h]
    | some q => simp [runLines, h]
  | cons l ls ih =>
    cases h : stepLine st l with
    | none => simp [runLines, h]
    | some p =>
      obtain ⟨st1, oit⟩ := p
      simp only [List.cons_append, runLines, h, List.append_eq]
      rw [ih st1]
      cases h2 : runLines st1 ls with
      | none => simp
      | some q =>
        obtain ⟨st2, items⟩ := q
        cases h3 : runLines st2 ys with
        | none => simp [h3]
        | some r => simp [h3, List.append_assoc]

/-- The loop returns (rather than raising) exactly when no line raises. -/
theorem runLines_isSome (st : PState) (ls : List (List Char)) :
    (runLines st ls).isSome = noTimeErrors st ls := by
  induction ls generalizing st with
  | nil => simp [runLines, noTimeErrors]
  | cons l ls ih =>
    simp only [noTimeErrors]
    cases h : stepLine st l with
    | none =>
      have hok := stepLine_isSome st l
      rw [h] at hok
      simp [runLines, h, ← hok]
    | some p =>
      obtain ⟨st1, oit⟩ := p
      have hok := stepLine_isSome st l
      rw [h] at hok
      have hst : st1 = advState st l := stepLine_state h
      simp only [runLines, h]
      rw [← hok]
      simp only [Option.isSome_some, Bool.true_and]
      rw [← hst]
      cases h2 : runLines st1 ls with
      | none =>
        have hih := ih st1
        rw [h2] at hih
        simp [← hih]
      | some q =>
        have hih := ih st1
        rw [h2] at hih
        simp [← hih]

/-- The number of emitted dictionaries is the number of well-formed dialogue
lines. -/
theorem runLines_length {st : PState} {ls : List (List Char)} {stf : PState}
    {items : List Item} (h : runLines st ls = some (stf, items)) :
    items.length = countWF st ls := by
  induction ls generalizing st stf items with
  | nil =>
    simp [runLines] at h
    obtain ⟨-, rfl⟩ := h
    simp [countWF]
  | cons l ls ih =>
    cases h1 : stepLine st l with
    | none => simp [runLines, h1] at h
    | some p =>
      obtain ⟨st1, oit⟩ := p
      simp only [runLines, h1] at h
      cases h2 : runLines st1 ls with
      | none => simp [h2] at h
      | some q =>
        obtain ⟨st2, items'⟩ := q
        simp only [h2] at h
        simp at h
        have hst : st1 = advState st l := stepLine_state h1
        have hitem : oit.isSome = isWFDialogue st l := stepLine_item h1
        have hlen : items'.length = countWF st1 ls := ih h2
        rw [← h.2]
        simp only [countWF, List.length_append]
        rw [← hst, ← hitem, ← hlen]
        cases oit <;> simp

/-- Every emitted dictionary was emitted by some line of the script. -/
theorem runLines_mem {st : PState} {ls : List (List Char)} {stf : PState}
    {items : List Item} (h : runLines st ls = some (stf, items)) :
    ∀ it ∈ items, ∃ l ∈ ls, ∃ st0 st1, stepLine st0 l = some (st1, some it) := by
  induction ls generalizing st stf items with
  | nil =>
    simp [runLines] at h
    obtain ⟨-, rfl⟩ := h
    intro it hit
    simp at hit
  | cons l ls ih =>
    cases h1 : stepLine st l with
    | none => simp [runLines, h1] at h
    | some p =>
      obtain ⟨st1, oit⟩ := p
      simp only [runLines, h1] at h
      cases h2 : runLines st1 ls with
      | none => simp [h2] at h
      | some q =>
        obtain ⟨st2, items'⟩ := q
        simp only [h2] at h
        simp at h
        intro it hit
        rw [← h.2, List.mem_append] at hit
        cases hit with
        | inl hl =>
          cases oit with
          | none => simp at hl
          | some it0 =>
            simp at hl
            subst hl
            exact ⟨l, List.mem_cons_self l ls, st, st1, h1⟩
        | inr hr =>
          obtain ⟨l2, hl2, w⟩ := ih h2 it hr
          exact ⟨l2, List.mem_cons_of_mem l hl2, w⟩

/-! ## Claim theorems -/

/-- Claim C1, counterexample: an input whose dialogue line has ten fields but
an unparseable start time makes the parser raise (return `none`) instead of
skipping the line, so the parser does not return a sequence for every input. -/
theorem claim_C1_counterexample :
    parse_ass_to_dicts_first_color
      "[Events]\nDialogue: 0,oops,0:00:01.00,s,n,0,0,0,,hi" = none := by
  with_unfolding_all decide

/-- Claim C1 (amended): the parser returns a descriptor sequence exactly when
no Events-section dialogue line with at least ten fields has an unparseable
start or end time; every other malformed or short line is skipped silently
(no other failure source exists). -/
theorem claim_C1 (s : String) :
    (parse_ass_to_dicts_first_color s).isSome =
      noTimeErrors initState (pySplitlines s.toList) := by
  unfold parse_ass_to_dicts_first_color
  rw [← runLines_isSome]
  cases runLines initState (pySplitlines s.toList) <;> simp

/-- Claim C2: an input containing an Events-section dialogue line with exactly
ten comma-separated fields whose start time has periods instead of colons
makes the error propagate to the caller (`none`), not skip the line. -/
theorem claim_C2 :
    parse_ass_to_dicts_first_color
      "[Events]\nDialogue: 0,0.00.02.00,0:00:05.50,s,n,0,0,0,,hi" = none ∧
    (splitLimit (pyStrip
        "Dialogue: 0,0.00.02.00,0:00:05.50,s,n,0,0,0,,hi".toList) ',' 9).length = 10 := by
  constructor
  · with_unfolding_all decide
  · with_unfolding_all decide

/-- Claim C3: when the parser returns, the number of emitted descriptors is
exactly the number of well-formed dialogue lines (Events section, at least
ten fields when splitting on at most nine commas); and commas after the ninth
comma stay in the text payload, while short dialogue lines yield nothing. -/
theorem claim_C3 :
    (∀ (s : String) (items : List Item),
        parse_ass_to_dicts_first_color s = some items →
        items.length = countWF initState (pySplitlines s.toList)) ∧
    parse_ass_to_dicts_first_color
        "[Events]\nDialogue: 0,0:00:02.00,0:00:03.00,s,n,0,0,0,,a,b,c\nDialogue: short\nnoise" =
      some [⟨"a,b,c", 2, 3, "center", 48, "white"⟩] := by
  constructor
  · intro s items h
    unfold parse_ass_to_dicts_first_color at h
    cases hr : runLines initState (pySplitlines s.toList) with
    | none => rw [hr] at h; simp at h
    | some p =>
      rw [hr] at h
      simp at h
      have hl := runLines_length
        (show runLines initState (pySplitlines s.toList) = some (p.1, p.2) by rw [hr])
      rw [← h]
      exact hl
  · with_unfolding_all decide

/-- Claim C3, witness: a concrete script with one well-formed dialogue line. -/
theorem claim_C3_witness :
    ([⟨"a,b,c", 2, 3, "center", 48, "white"⟩] : List Item).length =
      countWF initState (pySplitlines
        "[Events]\nDialogue: 0,0:00:02.00,0:00:03.00,s,n,0,0,0,,a,b,c\nDialogue: short\nnoise".toList) :=
  claim_C3.1 _ _ claim_C3.2

/-- Claim C9, counterexample: Python `int`/`float` accept a leading minus, so
a dialogue line with time `0:00:-5.0` parses and yields a descriptor whose
start is −5 seconds, refuting non-negativity. -/
theorem claim_C9_counterexample :
    parse_ass_to_dicts_first_color
        "[Events]\nDialogue: 0,0:00:-5.0,0:00:01.00,s,n,0,0,0,,hi" =
      some [⟨"hi", -5, 1, "center", 48, "white"⟩] ∧ ((-5 : ℚ) < 0) := by
  constructor
  · with_unfolding_all decide
  · norm_num

/-- Claim C10: the section flags change only on lines whose stripped form
starts with `[V4+ Styles]` or `[Events]`; and concretely, an unrecognized
header such as `[Fonts]` or `[Script Info]` does not interrupt the current
section, so a later `Style: Default` line still sets the font size and a
later dialogue line still yields a descriptor. -/
theorem claim_C10 :
    (∀ (st : PState) (l : List Char) (p : PState × Option Item),
        stepLine st l = some p →
        isPrefixList hdrStyles (pyStrip l) = false →
        isPrefixList hdrEvents (pyStrip l) = false →
        p.1.inStyles = st.inStyles ∧ p.1.inEvents = st.inEvents) ∧
    parse_ass_to_dicts_first_color
        "[V4+ Styles]\n[Fonts]\nStyle: Default,Arial,72,x\n[Events]\n[Script Info]\nDialogue: 0,0:00:02.00,0:00:03.00,s,n,0,0,0,,hi" =
      some [⟨"hi", 2, 3, "center", 72, "white"⟩] := by
  constructor
  · intro st l p h h1 h2
    rw [stepLine_state h]
    simp [advState, h1, h2, styleState_inStyles, styleState_inEvents]
  · with_unfolding_all decide

/-- Claim C10, witness: a plain line leaves the initial state unchanged. -/
theorem claim_C10_witness :
    (initState, (none : Option Item)).1.inStyles = initState.inStyles ∧
    (initState, (none : Option Item)).1.inEvents = initState.inEvents :=
  claim_C10.1 initState "hello".toList (initState, none)
    (by with_unfolding_all decide) (by with_unfolding_all decide)
    (by with_unfolding_all decide)

/-- Core ordering lemma: descriptors produced by an earlier dialogue line
appear in the output strictly before those of a later dialogue line. -/
theorem runLines_order {st stA stA2 stB stB2 stf : PState}
    {xs ys zs : List (List Char)} {lA lB : List Char}
    {out as ms : List Item} {itA itB : Item}
    (hrun : runLines st (xs ++ (lA :: (ys ++ (lB :: zs)))) = some (stf, out))
    (hxs : runLines st xs = some (stA, as))
    (hA : stepLine stA lA = some (stA2, some itA))
    (hys : runLines stA2 ys = some (stB, ms))
    (hB : stepLine stB lB = some (stB2, some itB)) :
    ∃ bs, out = as ++ itA :: (ms ++ itB :: bs) := by
  rw [runLines_append, hxs] at hrun
  simp only [Option.some_bind] at hrun
  simp only [runLines, hA] at hrun
  rw [runLines_append, hys] at hrun
  simp only [Option.some_bind] at hrun
  simp only [runLines, hB] at hrun
  cases hz : runLines stB2 zs with
  | none => simp [hz] at hrun
  | some r =>
    simp only [hz] at hrun
    simp at hrun
    exact ⟨r.2, by rw [← hrun.2]⟩

/-- Claim C4: the returned descriptor sequence preserves the relative order
of the source dialogue lines: if line `lA` appears before line `lB` in the
split script and both emit a descriptor, then `lA`'s descriptor appears
before `lB`'s in the result. -/
theorem claim_C4 (s : String) (xs ys zs : List (List Char)) (lA lB : List Char)
    (stA stA2 stB stB2 : PState) (out as ms : List Item) (itA itB : Item)
    (hsplit : pySplitlines s.toList = xs ++ (lA :: (ys ++ (lB :: zs))))
    (hparse : parse_ass_to_dicts_first_color s = some out)
    (hxs : runLines initState xs = some (stA, as))
    (hA : stepLine stA lA = some (stA2, some itA))
    (hys : runLines stA2 ys = some (stB, ms))
    (hB : stepLine stB lB = some (stB2, some itB)) :
    ∃ bs, out = as ++ itA :: (ms ++ itB :: bs) := by
  unfold parse_ass_to_dicts_first_color at hparse
  rw [hsplit] at hparse
  cases hr : runLines initState (xs ++ (lA :: (ys ++ (lB :: zs)))) with
  | none => rw [hr] at hparse; simp at hparse
  | some p =>
    rw [hr] at hparse
    simp at hparse
    exact runLines_order
      (show runLines initState (xs ++ (lA :: (ys ++ (lB :: zs)))) = some (p.1, out) by
        rw [hr, ← hparse]) hxs hA hys hB

/-- Claim C4, witness: a two-dialogue script, instantiated concretely. -/
theorem claim_C4_witness :
    ∃ bs, ([⟨"aa", 2, 3, "center", 48, "white"⟩, ⟨"bb", 4, 5, "center", 48, "white"⟩] : List Item) =
      [] ++ (⟨"aa", 2, 3, "center", 48, "white"⟩ : Item) ::
        ([] ++ (⟨"bb", 4, 5, "center", 48, "white"⟩ : Item) :: bs) :=
  claim_C4
    "[Events]\nDialogue: 0,0:00:02.00,0:00:03.00,s,n,0,0,0,,aa\nDialogue: 0,0:00:04.00,0:00:05.00,s,n,0,0,0,,bb"
    ["[Events]".toList] [] []
    "Dialogue: 0,0:00:02.00,0:00:03.00,s,n,0,0,0,,aa".toList
    "Dialogue: 0,0:00:04.00,0:00:05.00,s,n,0,0,0,,bb".toList
    ⟨false, true, 48⟩ ⟨false, true, 48⟩ ⟨false, true, 48⟩ ⟨false, true, 48⟩
    [⟨"aa", 2, 3, "center", 48, "white"⟩, ⟨"bb", 4, 5, "center", 48, "white"⟩] [] []
    ⟨"aa", 2, 3, "center", 48, "white"⟩ ⟨"bb", 4, 5, "center", 48, "white"⟩
    (by with_unfolding_all decide)
    (by with_unfolding_all decide)
    (by with_unfolding_all decide)
    (by with_unfolding_all decide)
    (by with_unfolding_all decide)
    (by with_unfolding_all decide)

/-! ## Character and splitting lemmas for time parsing -/

/-- A digit differs from any non-digit character. -/
theorem isDigit_ne_of {c d : Char} (h : c.isDigit = true) (hd : d.isDigit = false) :
    c ≠ d := by
  rintro rfl
  rw [h] at hd
  exact absurd hd (by decide)

/-- Digits are not Python whitespace. -/
theorem isPySpace_eq_false_of_isDigit {c : Char} (h : c.isDigit = true) :
    isPySpace c = false := by
  unfold isPySpace
  have h1 : c ≠ ' ' := isDigit_ne_of h (by decide)
  have h2 : c ≠ '\t' := isDigit_ne_of h (by decide)
  have h3 : c ≠ '\n' := isDigit_ne_of h (by decide)
  have h4 : c ≠ '\r' := isDigit_ne_of h (by decide)
  have h5 : c ≠ '\x0b' := isDigit_ne_of h (by decide)
  have h6 : c ≠ '\x0c' := isDigit_ne_of h (by decide)
  simp [h1, h2, h3, h4, h5, h6]

/-- `dropWhile` is the identity when no element satisfies the predicate. -/
theorem dropWhile_eq_self_of {p : Char → Bool} {l : List Char}
    (h : ∀ c ∈ l, p c = false) : l.dropWhile p = l := by
  cases l with
  | nil => rfl
  | cons c cs => simp [List.dropWhile, h c (by simp)]

/-- `pyStrip` is the identity on whitespace-free strings. -/
theorem pyStrip_eq_self {l : List Char} (h : ∀ c ∈ l, isPySpace c = false) :
    pyStrip l = l := by
  unfold pyStrip
  rw [dropWhile_eq_self_of h]
  rw [dropWhile_eq_self_of (fun c hc => h c (List.mem_reverse.mp hc))]
  exact List.reverse_reverse l

/-- Splitting a separator-free run yields one field. -/
theorem splitOnCharAux_no_sep {sep : Char} {l : List Char}
    (h : ∀ c ∈ l, c ≠ sep) : ∀ acc, splitOnCharAux l sep acc = [acc.reverse ++ l] := by
  induction l with
  | nil => intro acc; simp [splitOnCharAux]
  | cons c cs ih =>
    intro acc
    have hc : ¬(c = sep) := h c (by simp)
    simp only [splitOnCharAux, if_neg hc]
    rw [ih (fun d hd => h d (by simp [hd]))]
    simp

/-- Splitting past the first separator emits the first field. -/
theorem splitOnCharAux_sep {sep : Char} {a : List Char}
    (h : ∀ c ∈ a, c ≠ sep) (b : List Char) :
    ∀ acc, splitOnCharAux (a ++ sep :: b) sep acc =
      (acc.reverse ++ a) :: splitOnCharAux b sep [] := by
  induction a with
  | nil => intro acc; simp [splitOnCharAux]
  | cons c cs ih =>
    intro acc
    have hc : ¬(c = sep) := h c (by simp)
    simp only [List.cons_append, splitOnCharAux, if_neg hc, List.append_eq]
    rw [ih (fun d hd => h d (by simp [hd]))]
    simp

/-- A two-separator string splits into its three separator-free components. -/
theorem splitOnChar_three {sep : Char} {a b c : List Char}
    (ha : ∀ x ∈ a, x ≠ sep) (hb : ∀ x ∈ b, x ≠ sep) (hc : ∀ x ∈ c, x ≠ sep) :
    splitOnChar (a ++ (sep :: (b ++ (sep :: c)))) sep = [a, b, c] := by
  unfold splitOnChar
  rw [splitOnCharAux_sep ha, splitOnCharAux_sep hb, splitOnCharAux_no_sep hc]
  simp

/-- A nonempty digit run parses by `parseDigits`. -/
theorem parseDigits_of_digits {l : List Char} (hne : l ≠ [])
    (hd : l.all Char.isDigit = true) : parseDigits l = some (digitsToNat l) := by
  unfold parseDigits
  rw [if_neg (by simpa using hne), if_pos hd]

/-- A nonempty digit run parses by Python `int` to its value. -/
theorem pyInt_of_digits {l : List Char} (hne : l ≠ [])
    (hd : l.all Char.isDigit = true) : pyInt l = some ((digitsToNat l : Int)) := by
  have hsp : pyStrip l = l :=
    pyStrip_eq_self fun c hc => isPySpace_eq_false_of_isDigit (List.all_eq_true.mp hd c hc)
  cases l with
  | nil => exact absurd rfl hne
  | cons c cs =>
    have hc : c.isDigit = true := List.all_eq_true.mp hd c (by simp)
    have h1 : ¬(c = '-') := isDigit_ne_of hc (by decide)
    have h2 : ¬(c = '+') := isDigit_ne_of hc (by decide)
    unfold pyInt
    rw [hsp]
    simp [if_neg h1, if_neg h2, parseDigits_of_digits hne hd]

/-- A digit-dot-digit run parses by Python `float` to its decimal value. -/
theorem pyFloat_of_digits {ip fp : List Char} (hip : ip ≠ [])
    (hipd : ip.all Char.isDigit = true) (hfpd : fp.all Char.isDigit = true) :
    pyFloat (ip ++ '.' :: fp) =
      some ((digitsToNat ip : ℚ) + (digitsToNat fp : ℚ) / ((10 : ℚ) ^ fp.length)) := by
  have hsp : pyStrip (ip ++ '.' :: fp) = ip ++ '.' :: fp := by
    refine pyStrip_eq_self fun c hc => ?_
    rw [List.mem_append] at hc
    cases hc with
    | inl h => exact isPySpace_eq_false_of_isDigit (List.all_eq_true.mp hipd c h)
    | inr h =>
      cases h with
      | head => decide
      | tail _ h => exact isPySpace_eq_false_of_isDigit (List.all_eq_true.mp hfpd c h)
  have hsplit : splitOnChar (ip ++ '.' :: fp) '.' = [ip, fp] := by
    unfold splitOnChar
    rw [splitOnCharAux_sep
      (fun x hx => isDigit_ne_of (List.all_eq_true.mp hipd x hx) (by decide))]
    rw [splitOnCharAux_no_sep
      (fun x hx => isDigit_ne_of (List.all_eq_true.mp hfpd x hx) (by decide))]
    simp
  cases ip with
  | nil => exact absurd rfl hip
  | cons c cs =>
    have hc : c.isDigit = true := List.all_eq_true.mp hipd c (by simp)
    have h1 : ¬(c = '-') := isDigit_ne_of hc (by decide)
    have h2 : ¬(c = '+') := isDigit_ne_of hc (by decide)
    unfold pyFloat
    rw [hsp]
    simp only [List.cons_append, if_neg h1, if_neg h2]
    unfold pyFloatUnsigned
    rw [List.cons_append] at hsplit
    rw [hsplit]
    simp [hipd, hfpd]

/-- Claim C5: on every well-formed time string `H:MM:SS.ss` (digit components,
generalized to arbitrary digit-run widths), `_ass_time_to_seconds` returns
`hours*3600 + minutes*60 + seconds`; in particular `0:00:06.10` gives `6.10`
seconds and `1:02:03.50` gives `3723.50` seconds. -/
theorem claim_C5 :
    (∀ (hs ms ip fp : List Char),
        hs ≠ [] → hs.all Char.isDigit = true →
        ms ≠ [] → ms.all Char.isDigit = true →
        ip ≠ [] → ip.all Char.isDigit = true → fp.all Char.isDigit = true →
        ass_time_to_seconds (hs ++ (':' :: (ms ++ (':' :: (ip ++ '.' :: fp))))) =
          some ((digitsToNat hs : ℚ) * 3600 + (digitsToNat ms : ℚ) * 60 +
            ((digitsToNat ip : ℚ) + (digitsToNat fp : ℚ) / ((10 : ℚ) ^ fp.length)))) ∧
    ass_time_to_seconds "0:00:06.10".toList = some ((61 : ℚ) / 10) ∧
    ass_time_to_seconds "1:02:03.50".toList = some ((7447 : ℚ) / 2) := by
  have hgen : ∀ (hs ms ip fp : List Char),
      hs ≠ [] → hs.all Char.isDigit = true →
      ms ≠ [] → ms.all Char.isDigit = true →
      ip ≠ [] → ip.all Char.isDigit = true → fp.all Char.isDigit = true →
      ass_time_to_seconds (hs ++ (':' :: (ms ++ (':' :: (ip ++ '.' :: fp))))) =
        some ((digitsToNat hs : ℚ) * 3600 + (digitsToNat ms : ℚ) * 60 +
          ((digitsToNat ip : ℚ) + (digitsToNat fp : ℚ) / ((10 : ℚ) ^ fp.length))) := by
    intro hs ms ip fp h1 h2 h3 h4 h5 h6 h7
    have hcs : ∀ x ∈ ip ++ '.' :: fp, x ≠ ':' := by
      intro x hx
      rw [List.mem_append] at hx
      cases hx with
      | inl h => exact isDigit_ne_of (List.all_eq_true.mp h6 x h) (by decide)
      | inr h =>
        cases h with
        | head => decide
        | tail _ h => exact isDigit_ne_of (List.all_eq_true.mp h7 x h) (by decide)
    unfold ass_time_to_seconds
    rw [splitOnChar_three
      (fun x hx => isDigit_ne_of (List.all_eq_true.mp h2 x hx) (by decide))
      (fun x hx => isDigit_ne_of (List.all_eq_true.mp h4 x hx) (by decide))
      hcs]
    dsimp only
    rw [pyInt_of_digits h1 h2, pyInt_of_digits h3 h4, pyFloat_of_digits h5 h6 h7]
    push_cast
    ring_nf
  refine ⟨hgen, ?_, ?_⟩
  · have hl : "0:00:06.10".toList =
        ['0'] ++ (':' :: (['0', '0'] ++ (':' :: (['0', '6'] ++ '.' :: ['1', '0'])))) := by
      decide
    rw [hl, hgen ['0'] ['0', '0'] ['0', '6'] ['1', '0']
      (by decide) (by decide) (by decide) (by decide) (by decide) (by decide) (by decide)]
    have d1 : digitsToNat ['0'] = 0 := by decide
    have d2 : digitsToNat ['0', '0'] = 0 := by decide
    have d3 : digitsToNat ['0', '6'] = 6 := by decide
    have d4 : digitsToNat ['1', '0'] = 10 := by decide
    rw [d1, d2, d3, d4]
    norm_num
  · have hl : "1:02:03.50".toList =
        ['1'] ++ (':' :: (['0', '2'] ++ (':' :: (['0', '3'] ++ '.' :: ['5', '0'])))) := by
      decide
    rw [hl, hgen ['1'] ['0', '2'] ['0', '3'] ['5', '0']
      (by decide) (by decide) (by decide) (by decide) (by decide) (by decide) (by decide)]
    have d1 : digitsToNat ['1'] = 1 := by decide
    have d2 : digitsToNat ['0', '2'] = 2 := by decide
    have d3 : digitsToNat ['0', '3'] = 3 := by decide
    have d4 : digitsToNat ['5', '0'] = 50 := by decide
    rw [d1, d2, d3, d4]
    norm_num

/-- Claim C5, witness: the general statement instantiated at `2:05:07.25`. -/
theorem claim_C5_witness :
    ass_time_to_seconds (['2'] ++ (':' :: (['0', '5'] ++ (':' :: (['0', '7'] ++ '.' :: ['2', '5']))))) =
      some ((digitsToNat ['2'] : ℚ) * 3600 + (digitsToNat ['0', '5'] : ℚ) * 60 +
        ((digitsToNat ['0', '7'] : ℚ) + (digitsToNat ['2', '5'] : ℚ) /
          ((10 : ℚ) ^ (['2', '5'] : List Char).length))) :=
  claim_C5.1 ['2'] ['0', '5'] ['0', '7'] ['2', '5']
    (by decide) (by decide) (by decide) (by decide) (by decide) (by decide) (by decide)

/-! ## Claims about the emitted fields -/

/-- Claim C6: every emitted descriptor's colour is `chooseColor` of its
line's payload; `chooseColor` looks the first found code up (uppercased) in
`color_map` with default `white`, and no tag gives `white`.  Concretely:
`FF0000` gives red, a lowercase `ff0000` also gives red (case-insensitive),
an unknown code gives white, the first of two tags governs, and a tagless
payload gives white. -/
theorem claim_C6 :
    (∀ (s : String) (items : List Item) (it : Item),
        parse_ass_to_dicts_first_color s = some items → it ∈ items →
        ∃ l ∈ pySplitlines s.toList, it.color = chooseColor (payloadOf l)) ∧
    (∀ (p cd : List Char) (rest : List (List Char)), findColorTags p = cd :: rest →
        chooseColor p = (color_map (String.mk (cd.map Char.toUpper))).getD "white") ∧
    (∀ p : List Char, findColorTags p = [] → chooseColor p = "white") ∧
    parse_ass_to_dicts_first_color
        "[Events]\nDialogue: 0,0:00:02.00,0:00:03.00,s,n,0,0,0,,\x7b\\1c&HFF0000&\x7dHello" =
      some [⟨"Hello", 2, 3, "center", 48, "red"⟩] ∧
    parse_ass_to_dicts_first_color
        "[Events]\nDialogue: 0,0:00:02.00,0:00:03.00,s,n,0,0,0,,\x7b\\1c&Hff0000&\x7dlow" =
      some [⟨"low", 2, 3, "center", 48, "red"⟩] ∧
    parse_ass_to_dicts_first_color
        "[Events]\nDialogue: 0,0:00:02.00,0:00:03.00,s,n,0,0,0,,\x7b\\1c&H123456&\x7dunk" =
      some [⟨"unk", 2, 3, "center", 48, "white"⟩] ∧
    parse_ass_to_dicts_first_color
        "[Events]\nDialogue: 0,0:00:02.00,0:00:03.00,s,n,0,0,0,,\x7b\\1c&H00FF00&\x7da\x7b\\1c&HFF0000&\x7db" =
      some [⟨"ab", 2, 3, "center", 48, "green"⟩] ∧
    parse_ass_to_dicts_first_color
        "[Events]\nDialogue: 0,0:00:02.00,0:00:03.00,s,n,0,0,0,,plain" =
      some [⟨"plain", 2, 3, "center", 48, "white"⟩] := by
  refine ⟨?_, ?_, ?_, ?_, ?_, ?_, ?_, ?_⟩
  · intro s items it hp him
    unfold parse_ass_to_dicts_first_color at hp
    cases hr : runLines initState (pySplitlines s.toList) with
    | none => rw [hr] at hp; simp at hp
    | some p =>
      rw [hr] at hp
      simp at hp
      obtain ⟨l, hl, st0, st1, hstep⟩ :=
        runLines_mem (show runLines initState (pySplitlines s.toList) = some (p.1, p.2) by
          rw [hr]) it (hp ▸ him)
      obtain ⟨-, -, -, -, sq, e, -, -, hit⟩ := stepLine_emit hstep
      exact ⟨l, hl, by rw [hit]⟩
  · intro p cd rest hf
    unfold chooseColor
    rw [hf]
  · intro p hf
    unfold chooseColor
    rw [hf]
  · with_unfolding_all decide
  · with_unfolding_all decide
  · with_unfolding_all decide
  · with_unfolding_all decide
  · with_unfolding_all decide

/-- Claim C6, witness: the membership part at a concrete one-line script. -/
theorem claim_C6_witness :
    ∃ l ∈ pySplitlines
        "[Events]\nDialogue: 0,0:00:02.00,0:00:03.00,s,n,0,0,0,,plain".toList,
      (⟨"plain", 2, 3, "center", 48, "white"⟩ : Item).color = chooseColor (payloadOf l) :=
  claim_C6.1 "[Events]\nDialogue: 0,0:00:02.00,0:00:03.00,s,n,0,0,0,,plain"
    [⟨"plain", 2, 3, "center", 48, "white"⟩] ⟨"plain", 2, 3, "center", 48, "white"⟩
    claim_C6.2.2.2.2.2.2.2 (by simp)

/-- Claim C8: every emitted descriptor's text is its line's payload run
through the cleaning pipeline (strip all colour tags, strip empty revert
tags, replace `\N` by newlines); concretely a payload carrying a colour tag,
a `\N` and a revert tag becomes `He\nllo`. -/
theorem claim_C8 :
    (∀ (s : String) (items : List Item) (it : Item),
        parse_ass_to_dicts_first_color s = some items → it ∈ items →
        ∃ l ∈ pySplitlines s.toList,
          it.text = String.mk (cleanTextOf (payloadOf l))) ∧
    parse_ass_to_dicts_first_color
        "[Events]\nDialogue: 0,0:00:02.00,0:00:03.00,s,n,0,0,0,,\x7b\\1c&HFF0000&\x7dHe\\Nllo\x7b\\1c\x7d" =
      some [⟨"He\nllo", 2, 3, "center", 48, "red"⟩] := by
  constructor
  · intro s items it hp him
    unfold parse_ass_to_dicts_first_color at hp
    cases hr : runLines initState (pySplitlines s.toList) with
    | none => rw [hr] at hp; simp at hp
    | some p =>
      rw [hr] at hp
      simp at hp
      obtain ⟨l, hl, st0, st1, hstep⟩ :=
        runLines_mem (show runLines initState (pySplitlines s.toList) = some (p.1, p.2) by
          rw [hr]) it (hp ▸ him)
      obtain ⟨-, -, -, -, sq, e, -, -, hit⟩ := stepLine_emit hstep
      exact ⟨l, hl, by rw [hit]⟩
  · with_unfolding_all decide

/-- Claim C8, witness: the general part at a concrete one-line script. -/
theorem claim_C8_witness :
    ∃ l ∈ pySplitlines
        "[Events]\nDialogue: 0,0:00:02.00,0:00:03.00,s,n,0,0,0,,\x7b\\1c&HFF0000&\x7dHe\\Nllo\x7b\\1c\x7d".toList,
      (⟨"He\nllo", 2, 3, "center", 48, "red"⟩ : Item).text =
        String.mk (cleanTextOf (payloadOf l)) :=
  claim_C8.1 "[Events]\nDialogue: 0,0:00:02.00,0:00:03.00,s,n,0,0,0,,\x7b\\1c&HFF0000&\x7dHe\\Nllo\x7b\\1c\x7d"
    [⟨"He\nllo", 2, 3, "center", 48, "red"⟩] ⟨"He\nllo", 2, 3, "center", 48, "red"⟩
    claim_C8.2 (by simp)

/-- Claim C7: an emitted descriptor's font size is the default recorded in
the loop state at its line (most recent successful `Default` style update,
initially 48); `styleUpdate` installs the parsed third field exactly when
the style name is `default` case-insensitively and the field parses as an
integer, and keeps the previous value when parsing fails.  Concretely:
a `Style: Default,Arial,36,...` line yields font size 36, no Styles section
yields 48, an unparseable third field keeps 48, the most recent of two
Default lines wins, and the spec's `Style: Default,Arial,48,...` yields 48. -/
theorem claim_C7 :
    (∀ (st : PState) (l : List Char) (st2 : PState) (it : Item),
        stepLine st l = some (st2, some it) → it.fontsize = st.default_fontsize) ∧
    (∀ (fd : Int) (ls : List Char) (n : Int),
        (pyStrip ((splitLimit ((splitOnChar ls ',').getD 0 []) ':' 1).getD 1 [])).map Char.toLower
            = "default".toList →
        pyInt ((splitOnChar ls ',').getD 2 []) = some n →
        styleUpdate fd ls = n) ∧
    (∀ (fd : Int) (ls : List Char),
        pyInt ((splitOnChar ls ',').getD 2 []) = none → styleUpdate fd ls = fd) ∧
    parse_ass_to_dicts_first_color
        "[V4+ Styles]\nStyle: Default,Arial,36,x\n[Events]\nDialogue: 0,0:00:02.00,0:00:03.00,s,n,0,0,0,,hi" =
      some [⟨"hi", 2, 3, "center", 36, "white"⟩] ∧
    parse_ass_to_dicts_first_color
        "[Events]\nDialogue: 0,0:00:02.00,0:00:03.00,s,n,0,0,0,,hi" =
      some [⟨"hi", 2, 3, "center", 48, "white"⟩] ∧
    parse_ass_to_dicts_first_color
        "[V4+ Styles]\nStyle: Default,Arial,abc,x\n[Events]\nDialogue: 0,0:00:02.00,0:00:03.00,s,n,0,0,0,,hi" =
      some [⟨"hi", 2, 3, "center", 48, "white"⟩] ∧
    parse_ass_to_dicts_first_color
        "[V4+ Styles]\nStyle: Default,Arial,36,x\nStyle: Default,Arial,60,x\n[Events]\nDialogue: 0,0:00:02.00,0:00:03.00,s,n,0,0,0,,hi" =
      some [⟨"hi", 2, 3, "center", 60, "white"⟩] ∧
    parse_ass_to_dicts_first_color
        "[V4+ Styles]\nStyle: Default,Arial,48,&H00FFFFFF,&H000000FF\n[Events]\nDialogue: 0,0:00:02.00,0:00:03.00,s,n,0,0,0,,hi" =
      some [⟨"hi", 2, 3, "center", 48, "white"⟩] := by
  refine ⟨?_, ?_, ?_, ?_, ?_, ?_, ?_, ?_⟩
  · intro st l st2 it h
    obtain ⟨-, -, -, -, sq, e, -, -, hit⟩ := stepLine_emit h
    rw [hit]
  · intro fd ls n hname hint
    unfold styleUpdate
    rw [if_pos hname, hint]
  · intro fd ls hint
    unfold styleUpdate
    dsimp only
    rw [hint]
    split <;> rfl
  · with_unfolding_all decide
  · with_unfolding_all decide
  · with_unfolding_all decide
  · with_unfolding_all decide
  · with_unfolding_all decide

/-- Claim C7, witness: the emitted-font-size part at a concrete line. -/
theorem claim_C7_witness :
    (⟨"hi", 2, 3, "center", 48, "white"⟩ : Item).fontsize =
      (⟨false, true, 48⟩ : PState).default_fontsize :=
  claim_C7.1 ⟨false, true, 48⟩
    "Dialogue: 0,0:00:02.00,0:00:03.00,s,n,0,0,0,,hi".toList
    ⟨false, true, 48⟩ ⟨"hi", 2, 3, "center", 48, "white"⟩
    (by with_unfolding_all decide)

/-! ## Non-negativity machinery for claim C9 -/

/-- Characters of a split field come from the split string (or the pending
accumulator). -/
theorem mem_of_mem_splitOnCharAux {sep : Char} {l : List Char} {c : Char} :
    ∀ {acc part : List Char}, part ∈ splitOnCharAux l sep acc → c ∈ part →
      c ∈ l ∨ c ∈ acc := by
  induction l with
  | nil =>
    intro acc part hp hc
    simp [splitOnCharAux] at hp
    subst hp
    exact Or.inr (List.mem_reverse.mp hc)
  | cons d ds ih =>
    intro acc part hp hc
    by_cases hd : d = sep
    · rw [splitOnCharAux, if_pos hd] at hp
      rcases List.mem_cons.mp hp with hp | hp
      · subst hp
        exact Or.inr (List.mem_reverse.mp hc)
      · rcases ih hp hc with h | h
        · exact Or.inl (List.mem_cons_of_mem d h)
        · simp at h
    · rw [splitOnCharAux, if_neg hd] at hp
      rcases ih hp hc with h | h
      · exact Or.inl (List.mem_cons_of_mem d h)
      · rcases List.mem_cons.mp h with h | h
        · exact Or.inl (h ▸ List.mem_cons_self c ds)
        · exact Or.inr h

/-- Characters of a split field come from the split string. -/
theorem mem_of_mem_splitOnChar {sep : Char} {l part : List Char} {c : Char}
    (hp : part ∈ splitOnChar l sep) (hc : c ∈ part) : c ∈ l := by
  rcases mem_of_mem_splitOnCharAux hp hc with h | h
  · exact h
  · simp at h

/-- Characters survive stripping. -/
theorem mem_of_mem_pyStrip {l : List Char} {c : Char} (h : c ∈ pyStrip l) : c ∈ l := by
  unfold pyStrip at h
  rw [List.mem_reverse] at h
  have h2 := (List.dropWhile_sublist _).subset h
  rw [List.mem_reverse] at h2
  exact (List.dropWhile_sublist _).subset h2

/-- `pyInt` of a minus-free string is non-negative. -/
theorem pyInt_nonneg {l : List Char} {n : Int} (h : pyInt l = some n)
    (hm : ∀ c ∈ l, c ≠ '-') : 0 ≤ n := by
  unfold pyInt at h
  cases hs : pyStrip l with
  | nil => rw [hs] at h; simp at h
  | cons c rest =>
    rw [hs] at h
    dsimp only at h
    have hcne : ¬(c = '-') := by
      refine hm c (mem_of_mem_pyStrip ?_)
      rw [hs]
      exact List.mem_cons_self c rest
    rw [if_neg hcne] at h
    by_cases hcp : c = '+'
    · rw [if_pos hcp] at h
      cases hpd : parseDigits rest with
      | none => rw [hpd] at h; simp at h
      | some m =>
        rw [hpd] at h
        simp at h
        rw [← h]
        exact Int.natCast_nonneg m
    · rw [if_neg hcp] at h
      cases hpd : parseDigits (c :: rest) with
      | none => rw [hpd] at h; simp at h
      | some m =>
        rw [hpd] at h
        simp at h
        rw [← h]
        exact Int.natCast_nonneg m

/-- The unsigned float parser only returns non-negative values. -/
theorem pyFloatUnsigned_nonneg {l : List Char} {q : ℚ}
    (h : pyFloatUnsigned l = some q) : 0 ≤ q := by
  unfold pyFloatUnsigned at h
  split at h
  · cases hpd : parseDigits _ with
    | none => rw [hpd] at h; simp at h
    | some m =>
      rw [hpd] at h
      simp at h
      rw [← h]
      positivity
  · split at h
    · simp at h
    · split at h
      · simp at h
        rw [← h]
        positivity
      · simp at h
  · simp at h

/-- `pyFloat` of a minus-free string is non-negative. -/
theorem pyFloat_nonneg {l : List Char} {q : ℚ} (h : pyFloat l = some q)
    (hm : ∀ c ∈ l, c ≠ '-') : 0 ≤ q := by
  unfold pyFloat at h
  cases hs : pyStrip l with
  | nil => rw [hs] at h; simp at h
  | cons c rest =>
    rw [hs] at h
    dsimp only at h
    have hcne : ¬(c = '-') := by
      refine hm c (mem_of_mem_pyStrip ?_)
      rw [hs]
      exact List.mem_cons_self c rest
    rw [if_neg hcne] at h
    by_cases hcp : c = '+'
    · rw [if_pos hcp] at h
      exact pyFloatUnsigned_nonneg h
    · rw [if_neg hcp] at h
      exact pyFloatUnsigned_nonneg h

/-- A converted time whose string has no minus sign is non-negative. -/
theorem ass_time_nonneg {t : List Char} {q : ℚ}
    (h : ass_time_to_seconds t = some q) (hm : ∀ c ∈ t, c ≠ '-') : 0 ≤ q := by
  unfold ass_time_to_seconds at h
  split at h
  · next hh mm ss heq =>
    have hmh : ∀ c ∈ hh, c ≠ '-' := fun c hc =>
      hm c (mem_of_mem_splitOnChar (by rw [heq]; simp) hc)
    have hmm : ∀ c ∈ mm, c ≠ '-' := fun c hc =>
      hm c (mem_of_mem_splitOnChar (by rw [heq]; simp) hc)
    have hms : ∀ c ∈ ss, c ≠ '-' := fun c hc =>
      hm c (mem_of_mem_splitOnChar (by rw [heq]; simp) hc)
    split at h
    · next hours minutes seconds hI hM hS =>
      simp at h
      have h1 := pyInt_nonneg hI hmh
      have h2 := pyInt_nonneg hM hmm
      have h3 := pyFloat_nonneg hS hms
      rw [← h]
      have c1 : (0 : ℚ) ≤ (hours : ℚ) := by exact_mod_cast h1
      have c2 : (0 : ℚ) ≤ (minutes : ℚ) := by exact_mod_cast h2
      positivity
    · simp at h
  · simp at h

/-- Claim C9 (amended): every emitted descriptor's start and end are exactly
the `_ass_time_to_seconds` values of its line's time fields, and such a value
is non-negative whenever the time string contains no minus sign; with a
minus sign (which Python `int`/`float` accept) a negative value is possible. -/
theorem claim_C9 :
    (∀ (s : String) (items : List Item) (it : Item),
        parse_ass_to_dicts_first_color s = some items → it ∈ items →
        ∃ l ∈ pySplitlines s.toList,
          ass_time_to_seconds (startFieldOf l) = some it.start ∧
          ass_time_to_seconds (endFieldOf l) = some it.endT) ∧
    (∀ (t : List Char) (q : ℚ),
        ass_time_to_seconds t = some q → (∀ c ∈ t, c ≠ '-') → 0 ≤ q) := by
  constructor
  · intro s items it hp him
    unfold parse_ass_to_dicts_first_color at hp
    cases hr : runLines initState (pySplitlines s.toList) with
    | none => rw [hr] at hp; simp at hp
    | some p =>
      rw [hr] at hp
      simp at hp
      obtain ⟨l, hl, st0, st1, hstep⟩ :=
        runLines_mem (show runLines initState (pySplitlines s.toList) = some (p.1, p.2) by
          rw [hr]) it (hp ▸ him)
      obtain ⟨-, -, -, -, sq, e, hsq, he, hit⟩ := stepLine_emit hstep
      exact ⟨l, hl, by rw [hit]; exact hsq, by rw [hit]; exact he⟩
  · exact fun t q h hm => ass_time_nonneg h hm

/-- Claim C9, witness: the field correspondence at a concrete script. -/
theorem claim_C9_witness :
    ∃ l ∈ pySplitlines "[Events]\nDialogue: 0,0:00:02.00,0:00:03.00,s,n,0,0,0,,hi".toList,
      ass_time_to_seconds (startFieldOf l) =
        some ((⟨"hi", 2, 3, "center", 48, "white"⟩ : Item).start) ∧
      ass_time_to_seconds (endFieldOf l) =
        some ((⟨"hi", 2, 3, "center", 48, "white"⟩ : Item).endT) :=
  claim_C9.1 "[Events]\nDialogue: 0,0:00:02.00,0:00:03.00,s,n,0,0,0,,hi"
    [⟨"hi", 2, 3, "center", 48, "white"⟩] ⟨"hi", 2, 3, "center", 48, "white"⟩
    (by with_unfolding_all decide) (by simp)
